import Mathlib

/-!
# Verification of the mobx-view core against its specification

This development shallowly embeds the core of the mobx-view repository
(src/src/decorators.ts, src/src/behavior.ts, src/src/config.ts) in Lean 4 and
proves or refutes the frozen specification claims about it.

The embedding models:
* the props synchronization protocol (`View._syncProps`, the deferred-commit
  layout effect, and `shallowEqual`) as explicit state transitions over an
  observable-box state that records the stored value, the last value made
  visible to reactive dependents, and a count of reactive notifications;
* member classification (`makeViewObservable`, `makeBehaviorObservable`, and
  the decorator-metadata merge in `createView`) as pure functions from a
  static class shape to an association list of per-member markings;
* the lifecycle engine (`layoutMountBehavior` / `mountBehavior` /
  `unmountBehavior`, the view-level layout-mount / mount effects and the
  unmount closure of `createView`) as trace-producing functions, where an
  uncaught exception is an explicit `Option Nat` escape channel and every
  call to the error sink (`reportError`) is an event in the trace;
* the behavior factory (`createBehavior`, its Proxy apply trap, and
  `isBehavior`) as a construction pipeline parameterized by the construction
  target, so that call-style and new-style invocation can be compared.

Machine integers do not occur in the modelled code paths; JavaScript values
that matter only through their classification-relevant shape are modelled by
an inductive `JSVal` with an opaque payload.
-/

namespace MobxView

/-! ## Props model

A props object is modelled as an association list from string keys to
primitive values.  JavaScript objects have unique keys; lookup takes the
first occurrence, which coincides with JavaScript semantics on all objects
the host can actually supply.  A missing key reads as `none` (undefined).
-/

abbrev Props : Type := List (String × Nat)

/-- Property read `o[k]`: first binding for `k`, `none` for undefined. -/
def jsLookup (o : Props) (k : String) : Option Nat :=
  (o.find? (fun p => p.1 == k)).map (fun p => p.2)

/-- Shallow comparison of two props objects, translated from `shallowEqual`
in src/src/decorators.ts: reference equality shortcut, then key-count
comparison, then key-by-key strict equality of values.  Props objects coming
from the host are never null, so the null guard of the source is vacuous
here; reference equality on objects implies structural equality, so the
shortcut is modelled by structural equality (the slow path returns the same
answer on structurally equal inputs). -/
def shallowEqual (a b : Props) : Bool :=
  if a = b then true
  else
    let keysA := a.map Prod.fst
    let keysB := b.map Prod.fst
    if keysA.length != keysB.length then false
    else keysA.all (fun k => jsLookup a k == jsLookup b k)

/-- The observable box holding props (`instance._propsBox`).  `value` is the
raw stored slot (`value_` in MobX), which `_syncProps` overwrites directly;
`committed` is the last value written through the reactive `set` path, i.e.
what dependents have been notified about; `notify` counts reactive
notifications delivered to dependents. -/
structure PropsBox where
  value : Props
  committed : Props
  notify : Nat
deriving DecidableEq

/-- Per-component-instance props state: the box plus `prevPropsRef.current`
from `createView`, the host props value last seen by the deferred-commit
effect. -/
structure PropsState where
  box : PropsBox
  prevProps : Props
deriving DecidableEq

/-- State right after instance creation: `observable.box(props)` stores the
initial props and has notified nobody; `prevPropsRef.current = props`. -/
def initPropsState (p : Props) : PropsState :=
  { box := { value := p, committed := p, notify := 0 }, prevProps := p }

/-- Translation of `View._syncProps` (src/src/decorators.ts): write the new
value directly into the box's internal slot, with no reactive notification
and no change to what dependents have seen. -/
def syncProps (s : PropsState) (p : Props) : PropsState :=
  { s with box := { s.box with value := p } }

/-- The reactive write path `runInAction(() => vm._propsBox.set(props))`:
stores the value, makes it the committed snapshot, and notifies dependents
(one batched transactional notification). -/
def boxSet (b : PropsBox) (p : Props) : PropsBox :=
  { value := p, committed := p, notify := b.notify + 1 }

/-- One render invocation as seen by the props protocol: the render body of
the component returned by `createView` calls `vm._syncProps(props)` and
nothing else on the box. -/
def renderStep (s : PropsState) (p : Props) : PropsState :=
  syncProps s p

/-- Reading `vm.props` (the `props` getter): `this._propsBox.get()` returns
the raw stored slot. -/
def propsGet (s : PropsState) : Props :=
  s.box.value

/-- The deferred-commit `useLayoutEffect` body of `createView`: if the host
props differ from `prevPropsRef.current` under `shallowEqual`, update
`prevPropsRef` and promote through the reactive write path; otherwise do
nothing. -/
def commitStep (s : PropsState) (p : Props) : PropsState :=
  if shallowEqual s.prevProps p then s
  else { box := boxSet s.box p, prevProps := p }

/-! ## Member classification model

`makeViewObservable` and `makeBehaviorObservable` classify an instance's
members by inspecting the instance's own keys, the classification-relevant
shape of each member's value, and the prototype chain.  A `ViewShape`
records exactly that static data. -/

/-- Classification-relevant shape of a JavaScript value stored in an
instance field.  `prim` covers every value that is neither a function, nor
a behavior instance, nor a `View.ref()` handle (including undefined); the
`Nat` payloads are opaque runtime data the classifier must not depend on. -/
inductive JSVal where
  | prim (n : Nat)
  | func (n : Nat)
  | behaviorVal (n : Nat)
  | refVal (n : Nat)
deriving DecidableEq

/-- The shape tag of a value: which of the classifier-visible predicates
(`typeof v === 'function'`, `isBehavior(v)`, `isViewRef(v)`) hold of it. -/
def JSVal.tag : JSVal → Nat
  | .prim _ => 0
  | .func _ => 1
  | .behaviorVal _ => 2
  | .refVal _ => 3

/-- A MobX member marking as produced by the classifiers: the possible
right-hand sides written into the map by src/src/decorators.ts and
src/src/behavior.ts, plus an opaque declared marking coming from decorator
metadata. -/
inductive Annot where
  | observableDeep
  | observableRef
  | computedMark
  | actionMark
  | actionBound
  | declaredMark (d : Nat)
deriving DecidableEq

/-- The map under construction, in insertion order. -/
abbrev AnnMap : Type := List (String × Annot)

/-- Lookup in the map: models both `key in annotations` (presence) and the
final value of a property. -/
def lookupA (m : AnnMap) (k : String) : Option Annot :=
  (m.find? (fun p => p.1 == k)).map (fun p => p.2)

/-- How a prototype-chain member appears to the classifier, from its
property descriptor: a get accessor, a function-valued data property, or
any other data property. -/
inductive MemberKind where
  | getter
  | method
  | dataProp
deriving DecidableEq

/-- Static shape of an instance as the classifiers see it: the deduplicated
own-key list (`Object.keys(instance)` unioned with the immediate prototype's
keys, in insertion order), the instance's field values, and the prototype
chain up to (excluding) the engine base class, each level as an ordered
descriptor list. -/
structure ViewShape where
  ownKeys : List String
  vals : List (String × JSVal)
  protoChain : List (List (String × MemberKind))
deriving DecidableEq

/-- Field read used by the own-key scan; a key without a stored value reads
as undefined, which classifies like any primitive. -/
def valOf (s : ViewShape) (k : String) : JSVal :=
  ((s.vals.find? (fun p => p.1 == k)).map (fun p => p.2)).getD (.prim 0)

/-- BASE_EXCLUDES from src/src/decorators.ts. -/
def BASE_EXCLUDES : List String :=
  ["props", "_propsBox", "forwardRef", "onCreate", "onLayoutMount", "onMount",
   "onUnmount", "render", "ref", "constructor", "_behaviors",
   "_collectBehaviors", "_layoutMountBehaviors", "_mountBehaviors",
   "_unmountBehaviors", "_syncProps"]

/-- BEHAVIOR_EXCLUDES from src/src/behavior.ts. -/
def BEHAVIOR_EXCLUDES : List String :=
  ["onCreate", "onLayoutMount", "onMount", "onUnmount", "constructor"]

/-- Own-key classification of one value in `makeViewObservable`: functions
are skipped (handled by the prototype walk), behavior instances and
`View.ref()` handles become `observable.ref`, everything else `observable`. -/
def classifyOwnView : JSVal → Option Annot
  | .func _ => none
  | .behaviorVal _ => some .observableRef
  | .refVal _ => some .observableRef
  | .prim _ => some .observableDeep

/-- Own-key classification in `makeBehaviorObservable`: functions skipped,
everything else `observable` (behaviors have no ref special case). -/
def classifyOwnBehavior : JSVal → Option Annot
  | .func _ => none
  | _ => some .observableDeep

/-- The own-key scan loop shared by both classifiers, parameterized by the
exclusion set and the per-value classification; skips excluded keys and
keys already present, otherwise appends the classification. -/
def ownScan (excl : List String) (classify : JSVal → Option Annot)
    (s : ViewShape) (m0 : AnnMap) : AnnMap :=
  s.ownKeys.foldl
    (fun m k =>
      if excl.contains k then m
      else if (lookupA m k).isSome then m
      else
        match classify (valOf s k) with
        | none => m
        | some a => m ++ [(k, a)])
    m0

/-- One prototype level of the walk in `makeViewObservable` and
`makeBehaviorObservable`: get accessors become `computed`, function-valued
properties become actions (bound when `autoBind`), data properties are left
alone; excluded or already-classified names are skipped. -/
def protoLevelWalk (excl : List String) (autoBind : Bool)
    (m0 : AnnMap) (lvl : List (String × MemberKind)) : AnnMap :=
  lvl.foldl
    (fun m kk =>
      if excl.contains kk.1 then m
      else if (lookupA m kk.1).isSome then m
      else
        match kk.2 with
        | .getter => m ++ [(kk.1, Annot.computedMark)]
        | .method => m ++ [(kk.1, if autoBind then Annot.actionBound else Annot.actionMark)]
        | .dataProp => m)
    m0

/-- The full prototype-chain walk. -/
def protoWalk (excl : List String) (autoBind : Bool)
    (chain : List (List (String × MemberKind))) (m0 : AnnMap) : AnnMap :=
  chain.foldl (protoLevelWalk excl autoBind) m0

/-- Translation of `makeViewObservable` (src/src/decorators.ts): own-key
scan starting from the empty map, then the prototype walk. -/
def makeViewObservableAnns (s : ViewShape) (autoBind : Bool) : AnnMap :=
  protoWalk BASE_EXCLUDES autoBind s.protoChain
    (ownScan BASE_EXCLUDES classifyOwnView s [])

/-- Translation of `makeBehaviorObservable` (src/src/behavior.ts): own-key
scan, then the prototype walk with `action.bound` for methods. -/
def makeBehaviorObservableAnns (s : ViewShape) : AnnMap :=
  protoWalk BEHAVIOR_EXCLUDES true s.protoChain
    (ownScan BEHAVIOR_EXCLUDES classifyOwnBehavior s [])

/-- Translation of the decorator-metadata branch of `createView`
(src/src/decorators.ts): start from the declared map (spread of
`decoratorAnnotations`), then walk the prototype chain adding `action.bound`
only for function-valued properties not already present. -/
def decoratorMerge (declared : AnnMap)
    (chain : List (List (String × MemberKind))) : AnnMap :=
  chain.foldl
    (fun m lvl =>
      lvl.foldl
        (fun m2 kk =>
          if BASE_EXCLUDES.contains kk.1 then m2
          else if (lookupA m2 kk.1).isSome then m2
          else
            match kk.2 with
            | .method => m2 ++ [(kk.1, Annot.actionBound)]
            | _ => m2)
        m)
    declared

/-- Two shapes agree statically: same own keys, same prototype chain, and
equal shape tags of the field values at every own key (the opaque payloads
may differ arbitrarily).  This is the data determined by the class
definition alone. -/
def shapeTagEq (s1 s2 : ViewShape) : Prop :=
  s1.ownKeys = s2.ownKeys ∧ s1.protoChain = s2.protoChain ∧
    ∀ k ∈ s1.ownKeys, (valOf s1 k).tag = (valOf s2 k).tag

/-- Number of bindings a map holds for a given name. -/
def countKey (m : AnnMap) (k : String) : Nat :=
  m.countP (fun p => p.1 == k)

/-! ## Lifecycle model

Lifecycle hooks and captured cleanups are modelled by behavioural
descriptions: a hook is absent, returns an optional cleanup, or throws; a
captured cleanup either completes or throws.  Running the engine produces a
trace of events — a hook invocation, a call to the error sink
(`reportError` from src/src/config.ts), or a cleanup invocation — together
with an `Option Nat` escape channel for an exception the engine lets
propagate to the host. -/

/-- The phase tags used by `ErrorContext.phase` in the source, plus the
creation step (needed only to mark `onCreate` invocations in traces). -/
inductive Phase where
  | layoutMountP
  | mountP
  | unmountP
  | createP
deriving DecidableEq

/-- Behaviour of a captured cleanup callable when invoked. -/
inductive CleanupSpec where
  | ok
  | throws (e : Nat)
deriving DecidableEq

/-- Behaviour of a lifecycle hook: not defined, runs and returns an optional
cleanup (`none` models returning undefined), or throws exception `e`. -/
inductive HookSpec where
  | absent
  | ret (c : Option CleanupSpec)
  | throws (e : Nat)
deriving DecidableEq

/-- Whether a hook throws when invoked. -/
def HookSpec.isThrows : HookSpec → Bool
  | .throws _ => true
  | _ => false

/-- Whether an optionally-captured cleanup throws when invoked. -/
def cleanupThrows : Option CleanupSpec → Bool
  | some (.throws _) => true
  | _ => false

/-- The context handed to the error sink, from src/src/config.ts /
src/src/behavior.ts call sites. -/
structure ErrorCtx where
  phase : Phase
  name : String
  isB : Bool
deriving DecidableEq

/-- Which of the two cleanup slots of a `BehaviorEntry` (or the view's
captured cleanups) is being invoked. -/
inductive CleanupKind where
  | layoutK
  | mountK
deriving DecidableEq

/-- Observable steps of a lifecycle run. -/
inductive Event where
  | hookRun (name : String) (phase : Phase) (isB : Bool)
  | report (e : Nat) (ctx : ErrorCtx)
  | cleanupRun (name : String) (kind : CleanupKind) (isB : Bool)
deriving DecidableEq

/-- A behavior instance as the lifecycle engine sees it. -/
structure BehaviorInst where
  name : String
  onLayoutMount : HookSpec
  onMount : HookSpec
  onUnmount : HookSpec
deriving DecidableEq

/-- Translation of `BehaviorEntry` (src/src/behavior.ts): the instance plus
the cleanups captured so far. -/
structure BehaviorEntry where
  inst : BehaviorInst
  layoutCleanup : Option CleanupSpec := none
  cleanup : Option CleanupSpec := none
deriving DecidableEq

/-- Translation of `layoutMountBehavior` (src/src/behavior.ts): if the hook
exists, invoke it inside try/catch; on success capture the returned cleanup
into `layoutCleanup`, on throw report with `isBehavior=true` and capture
nothing.  Never lets an exception escape. -/
def layoutMountBehavior (b : BehaviorEntry) : BehaviorEntry × List Event :=
  match b.inst.onLayoutMount with
  | .absent => (b, [])
  | .ret c => ({ b with layoutCleanup := c },
      [Event.hookRun b.inst.name .layoutMountP true])
  | .throws e => (b,
      [Event.hookRun b.inst.name .layoutMountP true,
       Event.report e { phase := .layoutMountP, name := b.inst.name, isB := true }])

/-- Translation of `mountBehavior` (src/src/behavior.ts): same shape as
`layoutMountBehavior` with the `onMount` hook and the `cleanup` slot. -/
def mountBehavior (b : BehaviorEntry) : BehaviorEntry × List Event :=
  match b.inst.onMount with
  | .absent => (b, [])
  | .ret c => ({ b with cleanup := c },
      [Event.hookRun b.inst.name .mountP true])
  | .throws e => (b,
      [Event.hookRun b.inst.name .mountP true,
       Event.report e { phase := .mountP, name := b.inst.name, isB := true }])

/-- Invocation of an optionally-captured cleanup (`behavior.layoutCleanup?.()`
and the like).  The source wraps none of these calls in try/catch, so a
throw escapes through the second component. -/
def runCleanupStep (name : String) (kind : CleanupKind) (isB : Bool)
    (c : Option CleanupSpec) : List Event × Option Nat :=
  match c with
  | none => ([], none)
  | some .ok => ([Event.cleanupRun name kind isB], none)
  | some (.throws e) => ([Event.cleanupRun name kind isB], some e)

/-- Trace of the `onUnmount` invocation guarded by try/catch, as in
`unmountBehavior` and the view-level unmount closure. -/
def unmountHookEvents (name : String) (isB : Bool) (h : HookSpec) : List Event :=
  match h with
  | .absent => []
  | .ret _ => [Event.hookRun name .unmountP isB]
  | .throws e =>
      [Event.hookRun name .unmountP isB,
       Event.report e { phase := .unmountP, name := name, isB := isB }]

/-- Translation of `unmountBehavior` (src/src/behavior.ts): invoke the
layout cleanup if captured, then the mount cleanup if captured — both
outside any try/catch, so a throw aborts the entry and escapes — then
`onUnmount` inside try/catch. -/
def unmountBehavior (b : BehaviorEntry) : List Event × Option Nat :=
  let s1 := runCleanupStep b.inst.name .layoutK true b.layoutCleanup
  match s1.2 with
  | some e => (s1.1, some e)
  | none =>
    let s2 := runCleanupStep b.inst.name .mountK true b.cleanup
    match s2.2 with
    | some e => (s1.1 ++ s2.1, some e)
    | none => (s1.1 ++ s2.1 ++ unmountHookEvents b.inst.name true b.inst.onUnmount, none)

/-- Translation of `View._layoutMountBehaviors`: run `layoutMountBehavior`
on each entry in registration order.  No call can throw. -/
def layoutMountBehaviors : List BehaviorEntry → List BehaviorEntry × List Event
  | [] => ([], [])
  | b :: bs =>
    let r := layoutMountBehavior b
    let rest := layoutMountBehaviors bs
    (r.1 :: rest.1, r.2 ++ rest.2)

/-- Translation of `View._mountBehaviors`. -/
def mountBehaviors : List BehaviorEntry → List BehaviorEntry × List Event
  | [] => ([], [])
  | b :: bs =>
    let r := mountBehavior b
    let rest := mountBehaviors bs
    (r.1 :: rest.1, r.2 ++ rest.2)

/-- Translation of `View._unmountBehaviors`: run `unmountBehavior` on each
entry in registration order; the loop body is not guarded, so the first
escaping exception aborts the remaining entries and propagates. -/
def unmountBehaviors : List BehaviorEntry → List Event × Option Nat
  | [] => ([], none)
  | b :: bs =>
    let r := unmountBehavior b
    match r.2 with
    | some e => (r.1, some e)
    | none =>
      let rest := unmountBehaviors bs
      (r.1 ++ rest.1, rest.2)

/-- A view instance as the lifecycle engine sees it. -/
structure ViewInst where
  name : String
  behaviors : List BehaviorEntry
  onCreate : HookSpec
  onLayoutMount : HookSpec
  onMount : HookSpec
  onUnmount : HookSpec
  hasRender : Bool
deriving DecidableEq

/-- The view's own mount-phase hook invocation inside the try/catch of the
`createView` effects: on success the returned cleanup is captured, on throw
the error is reported with `isBehavior=false` and no cleanup is captured. -/
def viewHookRun (vname : String) (phase : Phase) (h : HookSpec) :
    Option CleanupSpec × List Event :=
  match h with
  | .absent => (none, [])
  | .ret c => (c, [Event.hookRun vname phase false])
  | .throws e => (none,
      [Event.hookRun vname phase false,
       Event.report e { phase := phase, name := vname, isB := false }])

/-- Translation of the layout-mount `useLayoutEffect` of `createView`
(src/src/decorators.ts): `vm._layoutMountBehaviors()` first, then the
view's own `onLayoutMount` in try/catch, capturing its cleanup. -/
def layoutMountEffect (v : ViewInst) : ViewInst × List Event × Option CleanupSpec :=
  let rb := layoutMountBehaviors v.behaviors
  let rv := viewHookRun v.name .layoutMountP v.onLayoutMount
  ({ v with behaviors := rb.1 }, rb.2 ++ rv.2, rv.1)

/-- Translation of the mount `useEffect` of `createView`: behaviors first,
then the view's own `onMount` in try/catch, capturing its cleanup. -/
def mountEffect (v : ViewInst) : ViewInst × List Event × Option CleanupSpec :=
  let rb := mountBehaviors v.behaviors
  let rv := viewHookRun v.name .mountP v.onMount
  ({ v with behaviors := rb.1 }, rb.2 ++ rv.2, rv.1)

/-- Translation of the unmount closure returned by the mount `useEffect` of
`createView`: invoke the view's captured mount cleanup (unguarded), then the
view's `onUnmount` in try/catch, then `vm._unmountBehaviors()`. -/
def unmountClosure (v : ViewInst) (mountCleanup : Option CleanupSpec) :
    List Event × Option Nat :=
  let s1 := runCleanupStep v.name .mountK false mountCleanup
  match s1.2 with
  | some e => (s1.1, some e)
  | none =>
    let ev2 := unmountHookEvents v.name false v.onUnmount
    let s3 := unmountBehaviors v.behaviors
    (s1.1 ++ ev2 ++ s3.1, s3.2)

/-- Why a first render can fail: the missing-render check of `createView`,
or an exception escaping from the unguarded `onCreate` invocation. -/
inductive RenderErr where
  | missingRender
  | hookExc (e : Nat)
deriving DecidableEq

/-- The `instance.onCreate?.(reactiveProps)` invocation in the creation
block of `createView`: not wrapped in try/catch, so a throw escapes and no
report is emitted. -/
def createInstance (v : ViewInst) : List Event × Option Nat :=
  match v.onCreate with
  | .absent => ([], none)
  | .ret _ => ([Event.hookRun v.name .createP false], none)
  | .throws e => ([Event.hookRun v.name .createP false], some e)

/-- The first render body of the component returned by `createView`: the
creation block (ending with the unguarded `onCreate` call), then — at the
end of the render body — the missing-render check, which throws when the
view class has no `render` method and no template function was supplied. -/
def renderBody (v : ViewInst) (hasTemplate : Bool) : List Event × Option RenderErr :=
  let c := createInstance v
  match c.2 with
  | some e => (c.1, some (RenderErr.hookExc e))
  | none =>
    if !hasTemplate && !v.hasRender then (c.1, some RenderErr.missingRender)
    else (c.1, none)

/-- Mounting one instance: the first render, and — only if it completed —
the host commits and runs the layout-mount effect then the mount effect.
A throw during render unwinds before commit, so no effect of this instance
ever runs. -/
def mountInstance (v : ViewInst) (hasTemplate : Bool) : List Event × Option RenderErr :=
  let r := renderBody v hasTemplate
  match r.2 with
  | some err => (r.1, some err)
  | none =>
    let l := layoutMountEffect v
    let m := mountEffect l.1
    (r.1 ++ l.2.1 ++ m.2.1, none)

/-! ## Behavior factory model

`createBehavior` wraps the user class in a `BehaviorClass` carrying the
static behavior marker and returns a Proxy whose apply trap constructs a
`BehaviorClass`; construction with `new` goes through the Proxy's default
construct behaviour, which forwards to the target class with the Proxy as
new-target.  The model tracks which constructor reference ends up as the
instance's `constructor` and the ordered construction steps. -/

/-- A user behavior definition: its name and whether `onCreate` is a
function on the instance. -/
structure BehaviorDefn where
  name : String
  hasOnCreate : Bool
deriving DecidableEq

/-- Construction steps of `BehaviorClass`'s constructor, in order:
`super(...args)` runs the user constructor, then `onCreate(...args)` if
defined, then observable wrapping (auto or decorator-driven). -/
inductive CEvent where
  | superCtor (args : List Nat)
  | onCreateCall (args : List Nat)
  | wrapAuto
  | wrapDecorator
deriving DecidableEq

/-- A reference to a constructor value: the wrapped `BehaviorClass` itself,
or the Proxy returned by `createBehavior`. -/
inductive CtorRef where
  | classRef (d : BehaviorDefn)
  | proxyRef (d : BehaviorDefn)
deriving DecidableEq

/-- Resolving `newTarget.prototype`: on the class it is the class's own
prototype object; on the Proxy the absent get trap forwards the read to the
target class.  The result is identified by the class that owns it. -/
def resolveProtoOwner : CtorRef → BehaviorDefn
  | .classRef d => d
  | .proxyRef d => d

/-- Reading the static `BEHAVIOR_MARKER` property from a constructor
reference: `BehaviorClass` carries `static [BEHAVIOR_MARKER] = true`; on the
Proxy the absent get trap forwards to the target. -/
def ctorMarker : CtorRef → Bool
  | .classRef _ => true
  | .proxyRef _ => true

/-- The `constructor` property of `BehaviorClass.prototype` is the
`BehaviorClass` itself. -/
def protoCtor (d : BehaviorDefn) : CtorRef :=
  CtorRef.classRef d

/-- A constructed behavior object: the definition it came from, its
`constructor` reference (resolved through the prototype the construction
installed), and the trace of construction steps. -/
structure BehaviorObj where
  defn : BehaviorDefn
  ctor : CtorRef
  trace : List CEvent
deriving DecidableEq

/-- Translation of the `BehaviorClass` constructor in `createBehavior`
(src/src/behavior.ts), parameterized by the new-target the construction was
started with: run the user constructor via `super(...args)`, call
`onCreate(...args)` if it is a function, then wrap (auto-observable when the
per-behavior option, defaulted from the global config, says so).  The
instance's prototype comes from `newTarget.prototype`, hence its
`constructor` is the class owning that prototype. -/
def constructBehavior (d : BehaviorDefn) (newTarget : CtorRef)
    (optAuto : Option Bool) (globalAuto : Bool) (args : List Nat) : BehaviorObj :=
  { defn := d
  , ctor := protoCtor (resolveProtoOwner newTarget)
  , trace :=
      [CEvent.superCtor args]
        ++ (if d.hasOnCreate then [CEvent.onCreateCall args] else [])
        ++ [if optAuto.getD globalAuto then CEvent.wrapAuto else CEvent.wrapDecorator] }

/-- Invoking the factory directly as a function: the Proxy apply trap runs
`new BehaviorClass(...args)`, so the new-target is the class itself. -/
def factoryCall (d : BehaviorDefn) (optAuto : Option Bool) (globalAuto : Bool)
    (args : List Nat) : BehaviorObj :=
  constructBehavior d (CtorRef.classRef d) optAuto globalAuto args

/-- Invoking the factory with `new`: the Proxy has no construct trap, so
construction is forwarded to the target class with the Proxy as new-target. -/
def factoryNew (d : BehaviorDefn) (optAuto : Option Bool) (globalAuto : Bool)
    (args : List Nat) : BehaviorObj :=
  constructBehavior d (CtorRef.proxyRef d) optAuto globalAuto args

/-- Translation of `isBehavior` (src/src/behavior.ts) applied to a
constructed object: read `value.constructor[BEHAVIOR_MARKER]` and compare
with `true`. -/
def isBehaviorObj (b : BehaviorObj) : Bool :=
  ctorMarker b.ctor

/-! ## Event predicates -/

/-- Whether an event was produced on behalf of a behavior (as opposed to the
view's own hooks and cleanups). -/
def evIsB : Event → Bool
  | .hookRun _ _ b => b
  | .report _ ctx => ctx.isB
  | .cleanupRun _ _ b => b

/-- Whether an event is any call to the error sink. -/
def isReportEvent : Event → Bool
  | .report _ _ => true
  | _ => false

/-- Whether an event is an error report for a behavior in the mount phase. -/
def isMountBehaviorReport : Event → Bool
  | .report _ ctx => ctx.isB && decide (ctx.phase = Phase.mountP)
  | _ => false

/-- Whether an event is an error report for a behavior in the layout-mount
phase. -/
def isLayoutBehaviorReport : Event → Bool
  | .report _ ctx => ctx.isB && decide (ctx.phase = Phase.layoutMountP)
  | _ => false

/-! ## Concrete instances used by counterexamples and witnesses -/

def kx : String := "x"

def ky : String := "y"

def nmView : String := "MyView"

def nmB1 : String := "b1"

def nmB2 : String := "b2"

def nmB3 : String := "b3"

def pX : Props := [(kx, 1)]

def pY : Props := [(kx, 2)]

/-- Behavior entry whose hooks succeed and return cleanups. -/
def entOk1 : BehaviorEntry :=
  { inst := { name := nmB1, onLayoutMount := HookSpec.ret (some CleanupSpec.ok),
              onMount := HookSpec.ret (some CleanupSpec.ok),
              onUnmount := HookSpec.ret none } }

/-- Behavior entry whose layout-mount and mount hooks both throw. -/
def entBad : BehaviorEntry :=
  { inst := { name := nmB2, onLayoutMount := HookSpec.throws 3,
              onMount := HookSpec.throws 4, onUnmount := HookSpec.ret none } }

/-- Behavior entry placed after the throwing one. -/
def entOk3 : BehaviorEntry :=
  { inst := { name := nmB3, onLayoutMount := HookSpec.ret none,
              onMount := HookSpec.ret (some CleanupSpec.ok),
              onUnmount := HookSpec.absent } }

/-- View with three behaviors where the second throws in both mount phases. -/
def vFault : ViewInst :=
  { name := nmView, behaviors := [entOk1, entBad, entOk3],
    onCreate := HookSpec.ret none,
    onLayoutMount := HookSpec.ret (some CleanupSpec.ok),
    onMount := HookSpec.ret (some CleanupSpec.ok),
    onUnmount := HookSpec.ret none, hasRender := true }

/-- Behavior entry whose captured layout cleanup throws at unmount. -/
def entCleanupThrows : BehaviorEntry :=
  { inst := { name := nmB1, onLayoutMount := HookSpec.absent,
              onMount := HookSpec.absent, onUnmount := HookSpec.ret none },
    layoutCleanup := some (CleanupSpec.throws 7),
    cleanup := some CleanupSpec.ok }

/-- Behavior entry registered after `entCleanupThrows`. -/
def entAfter : BehaviorEntry :=
  { inst := { name := nmB2, onLayoutMount := HookSpec.absent,
              onMount := HookSpec.absent, onUnmount := HookSpec.ret none } }

/-- Behavior entry as it stands after its `onMount` threw: no cleanup was
captured, `onUnmount` is present. -/
def entNoCleanup : BehaviorEntry :=
  { inst := { name := nmB1, onLayoutMount := HookSpec.absent,
              onMount := HookSpec.throws 9, onUnmount := HookSpec.ret none } }

/-- Behavior entry with captured cleanups whose `onUnmount` throws. -/
def entUnmountThrows : BehaviorEntry :=
  { inst := { name := nmB2, onLayoutMount := HookSpec.absent,
              onMount := HookSpec.absent, onUnmount := HookSpec.throws 6 },
    layoutCleanup := some CleanupSpec.ok, cleanup := some CleanupSpec.ok }

/-- View instance with hooks but no render method. -/
def vNoRender : ViewInst :=
  { name := nmView, behaviors := [], onCreate := HookSpec.ret none,
    onLayoutMount := HookSpec.ret none, onMount := HookSpec.ret none,
    onUnmount := HookSpec.ret none, hasRender := false }

/-- View instance whose `onCreate` throws. -/
def vCreateThrows : ViewInst :=
  { name := nmView, behaviors := [], onCreate := HookSpec.throws 5,
    onLayoutMount := HookSpec.ret none, onMount := HookSpec.ret none,
    onUnmount := HookSpec.ret none, hasRender := true }

/-- Behavior entry throwing in every lifecycle hook. -/
def entAllThrow : BehaviorEntry :=
  { inst := { name := nmB3, onLayoutMount := HookSpec.throws 11,
              onMount := HookSpec.throws 12, onUnmount := HookSpec.throws 13 } }

/-- View throwing in every own hook, with a behavior doing the same. -/
def vAllThrow : ViewInst :=
  { name := nmView, behaviors := [entAllThrow], onCreate := HookSpec.absent,
    onLayoutMount := HookSpec.throws 14, onMount := HookSpec.throws 15,
    onUnmount := HookSpec.throws 16, hasRender := true }

/-- A small shape with one own key carrying a value and one getter/method
pair on the prototype. -/
def shapeW : ViewShape :=
  { ownKeys := [kx, ky], vals := [(kx, JSVal.prim 5)],
    protoChain := [[(kx, MemberKind.getter), (ky, MemberKind.method)]] }

/-- Declared decorator metadata for `shapeW`. -/
def declaredW : AnnMap := [(kx, Annot.declaredMark 9)]

/-- Shape with a function-valued and a primitive field. -/
def shapeA : ViewShape :=
  { ownKeys := [kx, ky], vals := [(kx, JSVal.func 1), (ky, JSVal.prim 3)],
    protoChain := [[(ky, MemberKind.getter)]] }

/-- Same static shape as `shapeA`, different runtime payloads. -/
def shapeB : ViewShape :=
  { ownKeys := [kx, ky], vals := [(kx, JSVal.func 2), (ky, JSVal.prim 4)],
    protoChain := [[(ky, MemberKind.getter)]] }

/-- A behavior definition with an `onCreate` method. -/
def defnW : BehaviorDefn := { name := nmB1, hasOnCreate := true }

/-! ## Theorems -/

/-- C2: during each render, `_syncProps` writes the newly supplied props
value directly into the box's internal slot, so a read of `vm.props` during
that render returns the new value, while neither the notification count nor
the dependents-visible committed snapshot changes across any sequence of
render invocations — no dependent reaction is woken during a render. -/
theorem syncProps_read_currency (s : PropsState) (p : Props) (ps : List Props) :
    propsGet (renderStep s p) = p
    ∧ (renderStep s p).box.notify = s.box.notify
    ∧ (renderStep s p).box.committed = s.box.committed
    ∧ (ps.foldl renderStep s).box.notify = s.box.notify
    ∧ (ps.foldl renderStep s).box.committed = s.box.committed := by
  have hn : ∀ (l : List Props) (t : PropsState),
      (l.foldl renderStep t).box.notify = t.box.notify := by
    intro l
    induction l with
    | nil => intro t; rfl
    | cons q qs ih => intro t; simpa [renderStep, syncProps] using ih _
  have hc : ∀ (l : List Props) (t : PropsState),
      (l.foldl renderStep t).box.committed = t.box.committed := by
    intro l
    induction l with
    | nil => intro t; rfl
    | cons q qs ih => intro t; simpa [renderStep, syncProps] using ih _
  exact ⟨rfl, rfl, rfl, hn ps s, hc ps s⟩

/-- C3: after a render settles, the deferred-commit step promotes the
shadow value to the committed value through one transactional reactive
write (incrementing the notification count) exactly when the new props
value differs from the previously committed value under `shallowEqual`;
when the comparison finds no difference the state is untouched.  The
comparison register `prevPropsRef` coincides with the committed snapshot
initially, and both render and commit steps preserve that coincidence. -/
theorem commit_promotes_iff (s : PropsState) (p : Props)
    (hinv : s.prevProps = s.box.committed) :
    (shallowEqual s.box.committed p = false →
      commitStep s p =
        { box := { value := p, committed := p, notify := s.box.notify + 1 },
          prevProps := p })
    ∧ (shallowEqual s.box.committed p = true → commitStep s p = s)
    ∧ (commitStep s p).prevProps = (commitStep s p).box.committed
    ∧ (renderStep s p).prevProps = s.prevProps
    ∧ (renderStep s p).box.committed = s.box.committed
    ∧ (initPropsState p).prevProps = (initPropsState p).box.committed := by
  refine ⟨?_, ?_, ?_, rfl, rfl, rfl⟩
  · intro h
    simp [commitStep, hinv, h, boxSet]
  · intro h
    simp [commitStep, hinv, h]
  · by_cases h : shallowEqual s.prevProps p = true
    · rw [hinv] at h
      simp [commitStep, h, hinv]
    · simp only [Bool.not_eq_true] at h
      simp [commitStep, h, boxSet]

/-- Witness for C3 at a concrete state: initial props `x=1`, new props
`x=2`; the comparison register equals the committed snapshot, the shallow
comparison reports a difference, and the commit performs exactly one
reactive write. -/
theorem commit_promotes_iff_witness :
    (initPropsState pX).prevProps = (initPropsState pX).box.committed
    ∧ shallowEqual (initPropsState pX).box.committed pY = false
    ∧ commitStep (initPropsState pX) pY =
        { box := { value := pY, committed := pY, notify := 1 }, prevProps := pY } :=
  ⟨rfl, by decide,
   (commit_promotes_iff (initPropsState pX) pY rfl).1 (by decide)⟩

/-- C10: invoking the behavior factory as a plain call and with `new` yield
identical results; in both cases the user constructor runs first with the
supplied arguments, `onCreate` runs with the same arguments exactly when it
is defined, observable wrapping happens last, and the result is recognized
by `isBehavior`. -/
theorem behavior_factory_call_new_equiv (d : BehaviorDefn) (optAuto : Option Bool)
    (globalAuto : Bool) (args : List Nat) :
    factoryCall d optAuto globalAuto args = factoryNew d optAuto globalAuto args
    ∧ (factoryCall d optAuto globalAuto args).trace.head? =
        some (CEvent.superCtor args)
    ∧ (CEvent.onCreateCall args ∈ (factoryCall d optAuto globalAuto args).trace ↔
        d.hasOnCreate = true)
    ∧ (factoryCall d optAuto globalAuto args).trace.getLast? =
        some (if optAuto.getD globalAuto then CEvent.wrapAuto else CEvent.wrapDecorator)
    ∧ isBehaviorObj (factoryCall d optAuto globalAuto args) = true := by
  refine ⟨rfl, ?_, ?_, ?_, rfl⟩
  · cases hd : d.hasOnCreate <;>
      simp [factoryCall, constructBehavior, hd]
  · cases hd : d.hasOnCreate <;> cases hg : optAuto.getD globalAuto <;>
      simp [factoryCall, constructBehavior, hd, hg]
  · cases hd : d.hasOnCreate <;>
      simp [factoryCall, constructBehavior, hd, List.getLast?_concat]

/-- Witness for C10 at a concrete behavior definition with `onCreate` and
one argument. -/
theorem behavior_factory_call_new_equiv_witness :
    factoryCall defnW none true [42] = factoryNew defnW none true [42]
    ∧ (CEvent.onCreateCall [42] ∈ (factoryCall defnW none true [42]).trace ↔
        defnW.hasOnCreate = true)
    ∧ isBehaviorObj (factoryCall defnW none true [42]) = true :=
  ⟨(behavior_factory_call_new_equiv defnW none true [42]).1,
   (behavior_factory_call_new_equiv defnW none true [42]).2.2.1,
   (behavior_factory_call_new_equiv defnW none true [42]).2.2.2.2⟩

/-- Invariants are carried through a left fold whenever every step
preserves them. -/
theorem foldl_preserves {α β : Type} (P : β → Prop) (f : β → α → β)
    (hstep : ∀ m x, P m → P (f m x)) :
    ∀ (l : List α) (m : β), P m → P (l.foldl f m) := by
  intro l
  induction l with
  | nil => intro m h; exact h
  | cons x xs ih => intro m h; exact ih (f m x) (hstep m x h)

/-- Appending entries on the right never changes the binding a name already
has. -/
theorem lookupA_append_right (m : AnnMap) (tail : List (String × Annot))
    (k : String) (a : Annot) (h : lookupA m k = some a) :
    lookupA (m ++ tail) k = some a := by
  simp only [lookupA, List.find?_append] at h ⊢
  cases hf : List.find? (fun p => p.1 == k) m with
  | none => rw [hf] at h; simp at h
  | some q => rw [hf] at h; simpa using h

/-- The own-key scan never rebinds a name that already has a marking. -/
theorem ownScan_preserves (excl : List String) (cls : JSVal → Option Annot)
    (s : ViewShape) (k : String) (a : Annot) :
    ∀ m0 : AnnMap, lookupA m0 k = some a →
      lookupA (ownScan excl cls s m0) k = some a := by
  intro m0 h
  unfold ownScan
  refine foldl_preserves (fun m => lookupA m k = some a) _ ?_ s.ownKeys m0 h
  intro m x hm
  dsimp only
  split
  · exact hm
  split
  · exact hm
  cases hcl : cls (valOf s x) with
  | none => exact hm
  | some a2 => exact lookupA_append_right m [(x, a2)] k a hm

/-- One prototype level never rebinds a name that already has a marking. -/
theorem protoLevelWalk_preserves (excl : List String) (autoBind : Bool)
    (lvl : List (String × MemberKind)) (k : String) (a : Annot) :
    ∀ m0 : AnnMap, lookupA m0 k = some a →
      lookupA (protoLevelWalk excl autoBind m0 lvl) k = some a := by
  intro m0 h
  unfold protoLevelWalk
  refine foldl_preserves (fun m => lookupA m k = some a) _ ?_ lvl m0 h
  intro m x hm
  dsimp only
  split
  · exact hm
  split
  · exact hm
  cases x.2 with
  | getter => exact lookupA_append_right m _ k a hm
  | method => exact lookupA_append_right m _ k a hm
  | dataProp => exact hm

/-- The prototype-chain walk never rebinds a name that already has a
marking. -/
theorem protoWalk_preserves (excl : List String) (autoBind : Bool)
    (chain : List (List (String × MemberKind))) (k : String) (a : Annot) :
    ∀ m0 : AnnMap, lookupA m0 k = some a →
      lookupA (protoWalk excl autoBind chain m0) k = some a := by
  intro m0 h
  unfold protoWalk
  exact foldl_preserves (fun m => lookupA m k = some a) _
    (fun m lvl hm => protoLevelWalk_preserves excl autoBind lvl k a m hm)
    chain m0 h

/-- The decorator-metadata merge never rebinds a name that already has a
marking. -/
theorem decoratorMerge_preserves (chain : List (List (String × MemberKind)))
    (k : String) (a : Annot) :
    ∀ m0 : AnnMap, lookupA m0 k = some a →
      lookupA (decoratorMerge m0 chain) k = some a := by
  intro m0 h
  unfold decoratorMerge
  refine foldl_preserves (fun m => lookupA m k = some a) _ ?_ chain m0 h
  intro m lvl hm
  refine foldl_preserves (fun m2 => lookupA m2 k = some a) _ ?_ lvl m hm
  intro m2 x hm2
  dsimp only
  split
  · exact hm2
  split
  · exact hm2
  cases x.2 with
  | getter => exact hm2
  | method => exact lookupA_append_right m2 _ k a hm2
  | dataProp => exact hm2

/-- A name with no binding occurs zero times among the keys. -/
theorem lookupA_none_countKey (m : AnnMap) (k : String)
    (h : lookupA m k = none) : countKey m k = 0 := by
  unfold lookupA at h
  cases hf : List.find? (fun p => p.1 == k) m with
  | some q => rw [hf] at h; simp at h
  | none =>
    have hall := List.find?_eq_none.mp hf
    unfold countKey
    rw [List.countP_eq_zero]
    exact hall

/-- Appending a single binding changes the key count by one exactly when
the appended key matches. -/
theorem countKey_append_single (m : AnnMap) (x : String × Annot) (k : String) :
    countKey (m ++ [x]) k = countKey m k + (if x.1 == k then 1 else 0) := by
  unfold countKey
  rw [List.countP_append]
  simp [List.countP_cons]

/-- A guarded append (only when the key is unbound) keeps every key bound
at most once. -/
theorem countKey_le_one_append (m : AnnMap) (x : String × Annot) (k : String)
    (hguard : lookupA m x.1 = none) (hle : countKey m k ≤ 1) :
    countKey (m ++ [x]) k ≤ 1 := by
  rw [countKey_append_single]
  by_cases hx : x.1 == k
  · have hk : x.1 = k := by simpa using hx
    have h0 : countKey m k = 0 := by
      rw [← hk]
      exact lookupA_none_countKey m x.1 hguard
    simp [hx, h0]
  · simp [hx, hle]

/-- The own-key scan keeps every key bound at most once. -/
theorem ownScan_countKey_le_one (excl : List String) (cls : JSVal → Option Annot)
    (s : ViewShape) (k : String) :
    ∀ m0 : AnnMap, countKey m0 k ≤ 1 → countKey (ownScan excl cls s m0) k ≤ 1 := by
  intro m0 h
  unfold ownScan
  refine foldl_preserves (fun m => countKey m k ≤ 1) _ ?_ s.ownKeys m0 h
  intro m x hm
  dsimp only
  split
  · exact hm
  split
  · exact hm
  next hguard =>
    have hnone : lookupA m x = none := by
      cases ho : lookupA m x with
      | none => rfl
      | some q => rw [ho] at hguard; simp at hguard
    cases hcl : cls (valOf s x) with
    | none => exact hm
    | some a2 => exact countKey_le_one_append m (x, a2) k hnone hm

/-- One prototype level keeps every key bound at most once. -/
theorem protoLevelWalk_countKey_le_one (excl : List String) (autoBind : Bool)
    (lvl : List (String × MemberKind)) (k : String) :
    ∀ m0 : AnnMap, countKey m0 k ≤ 1 →
      countKey (protoLevelWalk excl autoBind m0 lvl) k ≤ 1 := by
  intro m0 h
  unfold protoLevelWalk
  refine foldl_preserves (fun m => countKey m k ≤ 1) _ ?_ lvl m0 h
  intro m x hm
  dsimp only
  split
  · exact hm
  split
  · exact hm
  next hguard =>
    have hnone : lookupA m x.1 = none := by
      cases ho : lookupA m x.1 with
      | none => rfl
      | some q => rw [ho] at hguard; simp at hguard
    cases x.2 with
    | getter => exact countKey_le_one_append m _ k hnone hm
    | method => exact countKey_le_one_append m _ k hnone hm
    | dataProp => exact hm

/-- The prototype-chain walk keeps every key bound at most once. -/
theorem protoWalk_countKey_le_one (excl : List String) (autoBind : Bool)
    (chain : List (List (String × MemberKind))) (k : String) :
    ∀ m0 : AnnMap, countKey m0 k ≤ 1 →
      countKey (protoWalk excl autoBind chain m0) k ≤ 1 := by
  intro m0 h
  unfold protoWalk
  exact foldl_preserves (fun m => countKey m k ≤ 1) _
    (fun m lvl hm => protoLevelWalk_countKey_le_one excl autoBind lvl k m hm)
    chain m0 h

/-- C4: classification assigns each member name at most once.  A declared
decorator marking is never overwritten by the inferred `action.bound` pass;
the own-key scan and the prototype-chain walk never rebind a name already
present in the map; and the complete inferred maps bind every name at most
once. -/
theorem classify_no_overwrite (s : ViewShape) (declared : AnnMap)
    (autoBind : Bool) (k : String) (a : Annot) :
    (lookupA declared k = some a →
      lookupA (decoratorMerge declared s.protoChain) k = some a)
    ∧ (∀ m0 : AnnMap, lookupA m0 k = some a →
        lookupA (ownScan BASE_EXCLUDES classifyOwnView s m0) k = some a)
    ∧ (∀ m0 : AnnMap, lookupA m0 k = some a →
        lookupA (protoWalk BASE_EXCLUDES autoBind s.protoChain m0) k = some a)
    ∧ countKey (makeViewObservableAnns s autoBind) k ≤ 1
    ∧ countKey (makeBehaviorObservableAnns s) k ≤ 1 := by
  refine ⟨?_, ?_, ?_, ?_, ?_⟩
  · exact fun h => decoratorMerge_preserves s.protoChain k a declared h
  · exact fun m0 h => ownScan_preserves BASE_EXCLUDES classifyOwnView s k a m0 h
  · exact fun m0 h => protoWalk_preserves BASE_EXCLUDES autoBind s.protoChain k a m0 h
  · exact protoWalk_countKey_le_one BASE_EXCLUDES autoBind s.protoChain k _
      (ownScan_countKey_le_one BASE_EXCLUDES classifyOwnView s k []
        (by simp [countKey]))
  · exact protoWalk_countKey_le_one BEHAVIOR_EXCLUDES true s.protoChain k _
      (ownScan_countKey_le_one BEHAVIOR_EXCLUDES classifyOwnBehavior s k []
        (by simp [countKey]))

/-- Witness for C4 on a concrete shape: the declared marking for `x`
survives the merge even though the prototype also offers an inferable
classification for `x`, and the inferred map binds `x` at most once. -/
theorem classify_no_overwrite_witness :
    lookupA declaredW kx = some (Annot.declaredMark 9)
    ∧ lookupA (decoratorMerge declaredW shapeW.protoChain) kx =
        some (Annot.declaredMark 9)
    ∧ countKey (makeViewObservableAnns shapeW true) kx ≤ 1 :=
  ⟨by decide,
   (classify_no_overwrite shapeW declaredW true kx (Annot.declaredMark 9)).1
     (by decide),
   (classify_no_overwrite shapeW declaredW true kx (Annot.declaredMark 9)).2.2.2.1⟩

/-- The own-key classifiers depend only on the shape tag of a value, never
on its payload. -/
theorem classify_tag_congr (v w : JSVal) (h : v.tag = w.tag) :
    classifyOwnView v = classifyOwnView w
    ∧ classifyOwnBehavior v = classifyOwnBehavior w := by
  cases v <;> cases w <;>
    simp_all [JSVal.tag, classifyOwnView, classifyOwnBehavior]

/-- Scanning two shapes with the same keys and pointwise equal
classifications yields the same map. -/
theorem ownScan_congr (excl : List String) (cls : JSVal → Option Annot)
    (s1 s2 : ViewShape) (hk : s1.ownKeys = s2.ownKeys)
    (hv : ∀ k ∈ s1.ownKeys, cls (valOf s1 k) = cls (valOf s2 k))
    (m0 : AnnMap) :
    ownScan excl cls s1 m0 = ownScan excl cls s2 m0 := by
  unfold ownScan
  rw [← hk]
  exact List.foldl_ext _ _ m0 (fun m k hkm => by rw [hv k hkm])

/-- C5: member classification is a pure function of the class's static
shape.  Two instances agreeing on own keys, prototype chain and the shape
tag of every own-key value — however much their runtime payloads differ —
receive identical maps, from the view classifier and from the behavior
classifier alike; re-running classification is the same function
application, hence yields the same map again. -/
theorem classify_value_independent (s1 s2 : ViewShape) (autoBind : Bool)
    (h : shapeTagEq s1 s2) :
    makeViewObservableAnns s1 autoBind = makeViewObservableAnns s2 autoBind
    ∧ makeBehaviorObservableAnns s1 = makeBehaviorObservableAnns s2 := by
  obtain ⟨hk, hc, hv⟩ := h
  constructor
  · unfold makeViewObservableAnns
    rw [hc, ownScan_congr BASE_EXCLUDES classifyOwnView s1 s2 hk
      (fun k hm => (classify_tag_congr _ _ (hv k hm)).1)]
  · unfold makeBehaviorObservableAnns
    rw [hc, ownScan_congr BEHAVIOR_EXCLUDES classifyOwnBehavior s1 s2 hk
      (fun k hm => (classify_tag_congr _ _ (hv k hm)).2)]

/-- Witness for C5 on two concrete instances of one class shape whose
function field carries different runtime payloads. -/
theorem classify_value_independent_witness :
    shapeTagEq shapeA shapeB
    ∧ makeViewObservableAnns shapeA true = makeViewObservableAnns shapeB true :=
  ⟨⟨by decide, by decide, by decide⟩,
   (classify_value_independent shapeA shapeB true
     ⟨by decide, by decide, by decide⟩).1⟩

/-- The behavior mount loop updates entries pointwise. -/
theorem mountBehaviors_fst (bs : List BehaviorEntry) :
    (mountBehaviors bs).1 = bs.map (fun b => (mountBehavior b).1) := by
  induction bs with
  | nil => rfl
  | cons x xs ih => simp [mountBehaviors, ih]

/-- The behavior layout-mount loop updates entries pointwise. -/
theorem layoutMountBehaviors_fst (bs : List BehaviorEntry) :
    (layoutMountBehaviors bs).1 = bs.map (fun b => (layoutMountBehavior b).1) := by
  induction bs with
  | nil => rfl
  | cons x xs ih => simp [layoutMountBehaviors, ih]

/-- Every event produced for one entry appears in the events of the whole
mount loop. -/
theorem mem_mountBehaviors_events (bs : List BehaviorEntry) (b : BehaviorEntry)
    (hb : b ∈ bs) (ev : Event) (hev : ev ∈ (mountBehavior b).2) :
    ev ∈ (mountBehaviors bs).2 := by
  induction bs with
  | nil => cases hb
  | cons x xs ih =>
    rcases List.mem_cons.mp hb with hbx | hbx
    · subst hbx
      simp only [mountBehaviors, List.mem_append]
      exact Or.inl hev
    · simp only [mountBehaviors, List.mem_append]
      exact Or.inr (ih hbx)

/-- Every event produced for one entry appears in the events of the whole
layout-mount loop. -/
theorem mem_layoutMountBehaviors_events (bs : List BehaviorEntry)
    (b : BehaviorEntry) (hb : b ∈ bs) (ev : Event)
    (hev : ev ∈ (layoutMountBehavior b).2) :
    ev ∈ (layoutMountBehaviors bs).2 := by
  induction bs with
  | nil => cases hb
  | cons x xs ih =>
    rcases List.mem_cons.mp hb with hbx | hbx
    · subst hbx
      simp only [layoutMountBehaviors, List.mem_append]
      exact Or.inl hev
    · simp only [layoutMountBehaviors, List.mem_append]
      exact Or.inr (ih hbx)

/-- One entry's mount contributes one behavior mount report exactly when
its hook throws. -/
theorem mountBehavior_report_count (b : BehaviorEntry) :
    (mountBehavior b).2.countP isMountBehaviorReport =
      if b.inst.onMount.isThrows then 1 else 0 := by
  cases hc : b.inst.onMount <;>
    simp [mountBehavior, hc, isMountBehaviorReport, HookSpec.isThrows,
      List.countP_cons]

/-- One entry's layout-mount contributes one behavior layout report exactly
when its hook throws. -/
theorem layoutMountBehavior_report_count (b : BehaviorEntry) :
    (layoutMountBehavior b).2.countP isLayoutBehaviorReport =
      if b.inst.onLayoutMount.isThrows then 1 else 0 := by
  cases hc : b.inst.onLayoutMount <;>
    simp [layoutMountBehavior, hc, isLayoutBehaviorReport, HookSpec.isThrows,
      List.countP_cons]

/-- The mount loop emits exactly one behavior mount report per throwing
entry. -/
theorem mountBehaviors_report_count (bs : List BehaviorEntry) :
    (mountBehaviors bs).2.countP isMountBehaviorReport =
      bs.countP (fun b => b.inst.onMount.isThrows) := by
  induction bs with
  | nil => rfl
  | cons x xs ih =>
    simp only [mountBehaviors, List.countP_append, List.countP_cons, ih,
      mountBehavior_report_count]
    by_cases hx : x.inst.onMount.isThrows <;> simp [hx, Nat.add_comm]

/-- The layout-mount loop emits exactly one behavior layout report per
throwing entry. -/
theorem layoutMountBehaviors_report_count (bs : List BehaviorEntry) :
    (layoutMountBehaviors bs).2.countP isLayoutBehaviorReport =
      bs.countP (fun b => b.inst.onLayoutMount.isThrows) := by
  induction bs with
  | nil => rfl
  | cons x xs ih =>
    simp only [layoutMountBehaviors, List.countP_append, List.countP_cons, ih,
      layoutMountBehavior_report_count]
    by_cases hx : x.inst.onLayoutMount.isThrows <;> simp [hx, Nat.add_comm]

/-- The view's own hook invocation never produces a behavior-flagged mount
report. -/
theorem viewHookRun_mount_report_count (n : String) (ph : Phase) (h : HookSpec) :
    (viewHookRun n ph h).2.countP isMountBehaviorReport = 0 := by
  cases h <;> simp [viewHookRun, isMountBehaviorReport, List.countP_cons]

/-- The view's own hook invocation never produces a behavior-flagged layout
report. -/
theorem viewHookRun_layout_report_count (n : String) (ph : Phase) (h : HookSpec) :
    (viewHookRun n ph h).2.countP isLayoutBehaviorReport = 0 := by
  cases h <;> simp [viewHookRun, isLayoutBehaviorReport, List.countP_cons]

/-- C1: when one behavior's `onMount` (or `onLayoutMount`) throws, the
error is caught at that entry's call site and reported with
`isBehavior=true`, the entry is left unchanged — in particular no cleanup
is captured for it — every behavior with the same-phase hook still has its
hook invoked, the view's own same-phase hook still runs, and the effect
emits exactly one behavior-flagged report per throwing entry. -/
theorem mount_fault_isolation (v : ViewInst) (i j : Fin v.behaviors.length)
    (e f : Nat)
    (hm : (v.behaviors.get i).inst.onMount = HookSpec.throws e)
    (hl : (v.behaviors.get j).inst.onLayoutMount = HookSpec.throws f) :
    (mountEffect v).1.behaviors[i.val]? = some (v.behaviors.get i)
    ∧ Event.report e ⟨Phase.mountP, (v.behaviors.get i).inst.name, true⟩ ∈
        (mountEffect v).2.1
    ∧ (∀ b ∈ v.behaviors, b.inst.onMount ≠ HookSpec.absent →
        Event.hookRun b.inst.name Phase.mountP true ∈ (mountEffect v).2.1)
    ∧ (v.onMount ≠ HookSpec.absent →
        Event.hookRun v.name Phase.mountP false ∈ (mountEffect v).2.1)
    ∧ (mountEffect v).2.1.countP isMountBehaviorReport =
        v.behaviors.countP (fun b => b.inst.onMount.isThrows)
    ∧ (layoutMountEffect v).1.behaviors[j.val]? = some (v.behaviors.get j)
    ∧ Event.report f ⟨Phase.layoutMountP, (v.behaviors.get j).inst.name, true⟩ ∈
        (layoutMountEffect v).2.1
    ∧ (∀ b ∈ v.behaviors, b.inst.onLayoutMount ≠ HookSpec.absent →
        Event.hookRun b.inst.name Phase.layoutMountP true ∈
          (layoutMountEffect v).2.1)
    ∧ (v.onLayoutMount ≠ HookSpec.absent →
        Event.hookRun v.name Phase.layoutMountP false ∈ (layoutMountEffect v).2.1)
    ∧ (layoutMountEffect v).2.1.countP isLayoutBehaviorReport =
        v.behaviors.countP (fun b => b.inst.onLayoutMount.isThrows) := by
  have hmem : v.behaviors.get i ∈ v.behaviors := v.behaviors.get_mem i.val i.isLt
  have hmemj : v.behaviors.get j ∈ v.behaviors := v.behaviors.get_mem j.val j.isLt
  have hm2 : v.behaviors[i.val].inst.onMount = HookSpec.throws e := hm
  have hl2 : v.behaviors[j.val].inst.onLayoutMount = HookSpec.throws f := hl
  refine ⟨?_, ?_, ?_, ?_, ?_, ?_, ?_, ?_, ?_, ?_⟩
  · have h1 : (mountEffect v).1.behaviors = (mountBehaviors v.behaviors).1 := rfl
    rw [h1, mountBehaviors_fst, List.getElem?_map,
      List.getElem?_eq_getElem i.isLt]
    simp [mountBehavior, List.get_eq_getElem, hm2]
  · refine List.mem_append_left _ ?_
    refine mem_mountBehaviors_events v.behaviors (v.behaviors.get i) hmem _ ?_
    simp [mountBehavior, List.get_eq_getElem, hm2]
  · intro b hb hne
    refine List.mem_append_left _ ?_
    refine mem_mountBehaviors_events v.behaviors b hb _ ?_
    cases hc : b.inst.onMount with
    | absent => exact absurd hc hne
    | ret c => simp [mountBehavior, hc]
    | throws e2 => simp [mountBehavior, hc]
  · intro hne
    refine List.mem_append_right _ ?_
    cases hc : v.onMount with
    | absent => exact absurd hc hne
    | ret c => simp [viewHookRun, hc]
    | throws e2 => simp [viewHookRun, hc]
  · have h2 : (mountEffect v).2.1 =
        (mountBehaviors v.behaviors).2 ++ (viewHookRun v.name .mountP v.onMount).2 := rfl
    rw [h2, List.countP_append, mountBehaviors_report_count,
      viewHookRun_mount_report_count]
    simp
  · have h1 : (layoutMountEffect v).1.behaviors =
        (layoutMountBehaviors v.behaviors).1 := rfl
    rw [h1, layoutMountBehaviors_fst, List.getElem?_map,
      List.getElem?_eq_getElem j.isLt]
    simp [layoutMountBehavior, List.get_eq_getElem, hl2]
  · refine List.mem_append_left _ ?_
    refine mem_layoutMountBehaviors_events v.behaviors (v.behaviors.get j) hmemj _ ?_
    simp [layoutMountBehavior, List.get_eq_getElem, hl2]
  · intro b hb hne
    refine List.mem_append_left _ ?_
    refine mem_layoutMountBehaviors_events v.behaviors b hb _ ?_
    cases hc : b.inst.onLayoutMount with
    | absent => exact absurd hc hne
    | ret c => simp [layoutMountBehavior, hc]
    | throws e2 => simp [layoutMountBehavior, hc]
  · intro hne
    refine List.mem_append_right _ ?_
    cases hc : v.onLayoutMount with
    | absent => exact absurd hc hne
    | ret c => simp [viewHookRun, hc]
    | throws e2 => simp [viewHookRun, hc]
  · have h2 : (layoutMountEffect v).2.1 =
        (layoutMountBehaviors v.behaviors).2 ++
          (viewHookRun v.name .layoutMountP v.onLayoutMount).2 := rfl
    rw [h2, List.countP_append, layoutMountBehaviors_report_count,
      viewHookRun_layout_report_count]
    simp

/-- Witness for C1: three behaviors where the second throws in both mount
phases; its entry stays cleanup-free, the third behavior's hook and the
view's own hook still run, and exactly one behavior mount report is
emitted. -/
theorem mount_fault_isolation_witness :
    (vFault.behaviors.get ⟨1, by decide⟩).inst.onMount = HookSpec.throws 4
    ∧ (vFault.behaviors.get ⟨1, by decide⟩).inst.onLayoutMount = HookSpec.throws 3
    ∧ ((mountEffect vFault).1.behaviors[1]? = some entBad
        ∧ Event.hookRun nmB3 Phase.mountP true ∈ (mountEffect vFault).2.1
        ∧ Event.hookRun nmView Phase.mountP false ∈ (mountEffect vFault).2.1
        ∧ (mountEffect vFault).2.1.countP isMountBehaviorReport = 1) := by
  have h := mount_fault_isolation vFault ⟨1, by decide⟩ ⟨1, by decide⟩ 4 3
    (by decide) (by decide)
  refine ⟨by decide, by decide, h.1, ?_, ?_, ?_⟩
  · exact h.2.2.1 entOk3 (by decide) (by decide)
  · exact h.2.2.2.1 (by decide)
  · rw [h.2.2.2.2.1]
    decide

/-- A cleanup slot that does not throw yields no escaping exception. -/
theorem runCleanupStep_snd_none (n : String) (k : CleanupKind) (isB : Bool)
    (c : Option CleanupSpec) (h : cleanupThrows c = false) :
    (runCleanupStep n k isB c).2 = none := by
  cases c with
  | none => rfl
  | some cs =>
    cases cs with
    | ok => rfl
    | throws e => simp [cleanupThrows] at h

/-- When neither captured cleanup throws, unmounting one entry lets nothing
escape and its trace is the layout-cleanup events, then the mount-cleanup
events, then the `onUnmount` events. -/
theorem unmountBehavior_no_throw (b : BehaviorEntry)
    (h1 : cleanupThrows b.layoutCleanup = false)
    (h2 : cleanupThrows b.cleanup = false) :
    (unmountBehavior b).2 = none
    ∧ (unmountBehavior b).1 =
        (runCleanupStep b.inst.name CleanupKind.layoutK true b.layoutCleanup).1
          ++ (runCleanupStep b.inst.name CleanupKind.mountK true b.cleanup).1
          ++ unmountHookEvents b.inst.name true b.inst.onUnmount := by
  have r1 := runCleanupStep_snd_none b.inst.name CleanupKind.layoutK true
    b.layoutCleanup h1
  have r2 := runCleanupStep_snd_none b.inst.name CleanupKind.mountK true
    b.cleanup h2
  constructor <;> simp [unmountBehavior, r1, r2]

/-- When no captured cleanup of any entry throws, the unmount loop lets
nothing escape and its trace is the concatenation of the per-entry traces
in registration order. -/
theorem unmountBehaviors_no_throw (bs : List BehaviorEntry)
    (h : ∀ b ∈ bs, cleanupThrows b.layoutCleanup = false ∧
      cleanupThrows b.cleanup = false) :
    (unmountBehaviors bs).2 = none
    ∧ (unmountBehaviors bs).1 =
        (bs.map (fun b => (unmountBehavior b).1)).flatten := by
  induction bs with
  | nil => exact ⟨rfl, rfl⟩
  | cons x xs ih =>
    have hx := h x (List.mem_cons_self x xs)
    have hxs : ∀ b ∈ xs, cleanupThrows b.layoutCleanup = false ∧
        cleanupThrows b.cleanup = false :=
      fun b hb => h b (List.mem_cons_of_mem x hb)
    have hne := unmountBehavior_no_throw x hx.1 hx.2
    obtain ⟨ihe, ihev⟩ := ih hxs
    constructor
    · simp [unmountBehaviors, hne.1, ihe]
    · simp [unmountBehaviors, hne.1, ihev]

/-- Every event of `unmountBehavior` comes from one of its three steps. -/
theorem unmountBehavior_events_sub (b : BehaviorEntry) (ev : Event)
    (hev : ev ∈ (unmountBehavior b).1) :
    ev ∈ (runCleanupStep b.inst.name CleanupKind.layoutK true b.layoutCleanup).1
      ∨ ev ∈ (runCleanupStep b.inst.name CleanupKind.mountK true b.cleanup).1
      ∨ ev ∈ unmountHookEvents b.inst.name true b.inst.onUnmount := by
  unfold unmountBehavior at hev
  rcases hx1 : (runCleanupStep b.inst.name CleanupKind.layoutK true b.layoutCleanup).2 with _ | e1
  · rcases hx2 : (runCleanupStep b.inst.name CleanupKind.mountK true b.cleanup).2 with _ | e2
    · simp only [hx1, hx2] at hev
      rcases List.mem_append.mp hev with hh | hh
      · rcases List.mem_append.mp hh with hh2 | hh2
        · exact Or.inl hh2
        · exact Or.inr (Or.inl hh2)
      · exact Or.inr (Or.inr hh)
    · simp only [hx1, hx2] at hev
      rcases List.mem_append.mp hev with hh | hh
      · exact Or.inl hh
      · exact Or.inr (Or.inl hh)
  · simp only [hx1] at hev
    exact Or.inl hev

/-- Events of an `onUnmount` invocation appear in the entry's unmount trace
whenever the cleanups do not throw. -/
theorem mem_unmountBehavior_hook (b : BehaviorEntry)
    (h1 : cleanupThrows b.layoutCleanup = false)
    (h2 : cleanupThrows b.cleanup = false) (ev : Event)
    (hev : ev ∈ unmountHookEvents b.inst.name true b.inst.onUnmount) :
    ev ∈ (unmountBehavior b).1 := by
  rw [(unmountBehavior_no_throw b h1 h2).2]
  exact List.mem_append.mpr (Or.inr hev)

/-- Per-entry unmount events appear in the loop's trace when no cleanup of
any entry throws. -/
theorem mem_unmountBehaviors_events (bs : List BehaviorEntry)
    (h : ∀ b ∈ bs, cleanupThrows b.layoutCleanup = false ∧
      cleanupThrows b.cleanup = false)
    (b : BehaviorEntry) (hb : b ∈ bs) (ev : Event)
    (hev : ev ∈ (unmountBehavior b).1) :
    ev ∈ (unmountBehaviors bs).1 := by
  rw [(unmountBehaviors_no_throw bs h).2]
  exact List.mem_flatten.mpr
    ⟨(unmountBehavior b).1, List.mem_map_of_mem _ hb, hev⟩

/-- C6 counterexample: two behaviors, the first with a captured layout
cleanup that throws.  The exception is not isolated: the first entry's
mount cleanup and `onUnmount` never run, the second entry is never
unmounted at all, and the exception escapes the unmount loop — refuting
the claim that each unmount step is individually fault-isolated. -/
theorem unmount_isolation_cex :
    (unmountBehaviors [entCleanupThrows, entAfter]).2 = some 7
    ∧ Event.cleanupRun nmB1 CleanupKind.mountK true ∉
        (unmountBehaviors [entCleanupThrows, entAfter]).1
    ∧ Event.hookRun nmB1 Phase.unmountP true ∉
        (unmountBehaviors [entCleanupThrows, entAfter]).1
    ∧ Event.hookRun nmB2 Phase.unmountP true ∉
        (unmountBehaviors [entCleanupThrows, entAfter]).1 := by
  decide

/-- C6 amended: for each entry in registration order the unmount steps run
as layout cleanup, then mount cleanup, then `onUnmount`; only the
`onUnmount` step is fault-isolated (a throw there is reported and
processing continues), while an exception from a captured cleanup
propagates and aborts the remaining steps and entries.  Provided no
captured cleanup throws, nothing escapes, every entry's present `onUnmount`
runs — in particular an entry whose `onMount` threw and so captured no
cleanup — and every throwing `onUnmount` is reported. -/
theorem unmount_amended (bs : List BehaviorEntry)
    (h : ∀ b ∈ bs, cleanupThrows b.layoutCleanup = false ∧
      cleanupThrows b.cleanup = false) :
    (unmountBehaviors bs).2 = none
    ∧ (unmountBehaviors bs).1 =
        (bs.map (fun b => (unmountBehavior b).1)).flatten
    ∧ (∀ b ∈ bs, (unmountBehavior b).1 =
        (runCleanupStep b.inst.name CleanupKind.layoutK true b.layoutCleanup).1
          ++ (runCleanupStep b.inst.name CleanupKind.mountK true b.cleanup).1
          ++ unmountHookEvents b.inst.name true b.inst.onUnmount)
    ∧ (∀ b ∈ bs, b.inst.onUnmount ≠ HookSpec.absent →
        Event.hookRun b.inst.name Phase.unmountP true ∈ (unmountBehaviors bs).1)
    ∧ (∀ b ∈ bs, ∀ e, b.inst.onUnmount = HookSpec.throws e →
        Event.report e ⟨Phase.unmountP, b.inst.name, true⟩ ∈
          (unmountBehaviors bs).1) := by
  obtain ⟨hsnd, hflat⟩ := unmountBehaviors_no_throw bs h
  refine ⟨hsnd, hflat, ?_, ?_, ?_⟩
  · intro b hb
    exact (unmountBehavior_no_throw b (h b hb).1 (h b hb).2).2
  · intro b hb hne
    refine mem_unmountBehaviors_events bs h b hb _ ?_
    refine mem_unmountBehavior_hook b (h b hb).1 (h b hb).2 _ ?_
    cases hc : b.inst.onUnmount with
    | absent => exact absurd hc hne
    | ret c => simp [unmountHookEvents, hc]
    | throws e => simp [unmountHookEvents, hc]
  · intro b hb e he
    refine mem_unmountBehaviors_events bs h b hb _ ?_
    refine mem_unmountBehavior_hook b (h b hb).1 (h b hb).2 _ ?_
    simp [unmountHookEvents, he]

/-- Witness for C6 amended: one entry whose `onMount` threw (no cleanup
captured) still has its `onUnmount` invoked at unmount, and a throwing
`onUnmount` on the second entry is reported without anything escaping. -/
theorem unmount_amended_witness :
    (∀ b ∈ [entNoCleanup, entUnmountThrows],
      cleanupThrows b.layoutCleanup = false ∧ cleanupThrows b.cleanup = false)
    ∧ (unmountBehaviors [entNoCleanup, entUnmountThrows]).2 = none
    ∧ Event.hookRun nmB1 Phase.unmountP true ∈
        (unmountBehaviors [entNoCleanup, entUnmountThrows]).1
    ∧ Event.report 6 ⟨Phase.unmountP, nmB2, true⟩ ∈
        (unmountBehaviors [entNoCleanup, entUnmountThrows]).1 := by
  have h := unmount_amended [entNoCleanup, entUnmountThrows] (by decide)
  exact ⟨by decide, h.1,
    h.2.2.2.1 entNoCleanup (by decide) (by decide),
    h.2.2.2.2 entUnmountThrows (by decide) 6 (by decide)⟩

/-- Events of one behavior's layout-mount are behavior-flagged. -/
theorem layoutMountBehavior_events_isB (b : BehaviorEntry) :
    ∀ ev ∈ (layoutMountBehavior b).2, evIsB ev = true := by
  intro ev hev
  cases hc : b.inst.onLayoutMount with
  | absent => simp [layoutMountBehavior, hc] at hev
  | ret c =>
    simp [layoutMountBehavior, hc] at hev
    subst hev; rfl
  | throws e =>
    simp [layoutMountBehavior, hc] at hev
    rcases hev with rfl | rfl <;> rfl

/-- Events of one behavior's mount are behavior-flagged. -/
theorem mountBehavior_events_isB (b : BehaviorEntry) :
    ∀ ev ∈ (mountBehavior b).2, evIsB ev = true := by
  intro ev hev
  cases hc : b.inst.onMount with
  | absent => simp [mountBehavior, hc] at hev
  | ret c =>
    simp [mountBehavior, hc] at hev
    subst hev; rfl
  | throws e =>
    simp [mountBehavior, hc] at hev
    rcases hev with rfl | rfl <;> rfl

/-- Events of the behavior layout-mount loop are behavior-flagged. -/
theorem layoutMountBehaviors_events_isB (bs : List BehaviorEntry) :
    ∀ ev ∈ (layoutMountBehaviors bs).2, evIsB ev = true := by
  induction bs with
  | nil => intro ev hev; simp [layoutMountBehaviors] at hev
  | cons x xs ih =>
    intro ev hev
    simp only [layoutMountBehaviors] at hev
    rcases List.mem_append.mp hev with hh | hh
    · exact layoutMountBehavior_events_isB x ev hh
    · exact ih ev hh

/-- Events of the behavior mount loop are behavior-flagged. -/
theorem mountBehaviors_events_isB (bs : List BehaviorEntry) :
    ∀ ev ∈ (mountBehaviors bs).2, evIsB ev = true := by
  induction bs with
  | nil => intro ev hev; simp [mountBehaviors] at hev
  | cons x xs ih =>
    intro ev hev
    simp only [mountBehaviors] at hev
    rcases List.mem_append.mp hev with hh | hh
    · exact mountBehavior_events_isB x ev hh
    · exact ih ev hh

/-- Events of the view's own hook invocation are view-flagged. -/
theorem viewHookRun_events_isB (n : String) (ph : Phase) (h : HookSpec) :
    ∀ ev ∈ (viewHookRun n ph h).2, evIsB ev = false := by
  intro ev hev
  cases hc : h with
  | absent => simp [viewHookRun, hc] at hev
  | ret c =>
    simp [viewHookRun, hc] at hev
    subst hev; rfl
  | throws e =>
    simp [viewHookRun, hc] at hev
    rcases hev with rfl | rfl <;> rfl

/-- Cleanup invocation events carry the flag of their owner. -/
theorem runCleanupStep_events_isB (n : String) (k : CleanupKind) (isB : Bool)
    (c : Option CleanupSpec) :
    ∀ ev ∈ (runCleanupStep n k isB c).1, evIsB ev = isB := by
  intro ev hev
  cases c with
  | none => simp [runCleanupStep] at hev
  | some cs =>
    cases cs with
    | ok => simp [runCleanupStep] at hev; subst hev; rfl
    | throws e => simp [runCleanupStep] at hev; subst hev; rfl

/-- Guarded `onUnmount` events carry the flag of their owner. -/
theorem unmountHookEvents_isB (n : String) (isB : Bool) (h : HookSpec) :
    ∀ ev ∈ unmountHookEvents n isB h, evIsB ev = isB := by
  intro ev hev
  cases hc : h with
  | absent => simp [unmountHookEvents, hc] at hev
  | ret c =>
    simp [unmountHookEvents, hc] at hev
    subst hev; rfl
  | throws e =>
    simp [unmountHookEvents, hc] at hev
    rcases hev with rfl | rfl <;> rfl

/-- Events of one entry's unmount are behavior-flagged. -/
theorem unmountBehavior_events_isB (b : BehaviorEntry) :
    ∀ ev ∈ (unmountBehavior b).1, evIsB ev = true := by
  intro ev hev
  rcases unmountBehavior_events_sub b ev hev with hh | hh | hh
  · exact runCleanupStep_events_isB _ _ _ _ ev hh
  · exact runCleanupStep_events_isB _ _ _ _ ev hh
  · exact unmountHookEvents_isB _ _ _ ev hh

/-- Events of the unmount loop are behavior-flagged. -/
theorem unmountBehaviors_events_isB (bs : List BehaviorEntry) :
    ∀ ev ∈ (unmountBehaviors bs).1, evIsB ev = true := by
  induction bs with
  | nil => intro ev hev; simp [unmountBehaviors] at hev
  | cons x xs ih =>
    intro ev hev
    unfold unmountBehaviors at hev
    rcases hx : (unmountBehavior x).2 with _ | e
    · simp only [hx] at hev
      rcases List.mem_append.mp hev with hh | hh
      · exact unmountBehavior_events_isB x ev hh
      · exact ih ev hh
    · simp only [hx] at hev
      exact unmountBehavior_events_isB x ev hev

/-- C7: lifecycle ordering relative to the owning view is asymmetric.  At
layout-mount and mount the effect trace splits as behavior events followed
by the view's own events, every behavior's phase hook landing in the first
part and the view's own hook in the second; at unmount the closure trace
splits as the view's own mount-cleanup and `onUnmount` events followed by
the behavior unmount events. -/
theorem lifecycle_order_asymmetry (v : ViewInst) (mc : Option CleanupSpec) :
    (∃ A B, (layoutMountEffect v).2.1 = A ++ B
      ∧ (∀ ev ∈ A, evIsB ev = true)
      ∧ (∀ ev ∈ B, evIsB ev = false)
      ∧ (v.onLayoutMount ≠ HookSpec.absent →
          Event.hookRun v.name Phase.layoutMountP false ∈ B)
      ∧ (∀ b ∈ v.behaviors, b.inst.onLayoutMount ≠ HookSpec.absent →
          Event.hookRun b.inst.name Phase.layoutMountP true ∈ A))
    ∧ (∃ A B, (mountEffect v).2.1 = A ++ B
      ∧ (∀ ev ∈ A, evIsB ev = true)
      ∧ (∀ ev ∈ B, evIsB ev = false)
      ∧ (v.onMount ≠ HookSpec.absent →
          Event.hookRun v.name Phase.mountP false ∈ B)
      ∧ (∀ b ∈ v.behaviors, b.inst.onMount ≠ HookSpec.absent →
          Event.hookRun b.inst.name Phase.mountP true ∈ A))
    ∧ (∃ C D, (unmountClosure v mc).1 = C ++ D
      ∧ (∀ ev ∈ C, evIsB ev = false)
      ∧ (∀ ev ∈ D, evIsB ev = true)
      ∧ (cleanupThrows mc = false → v.onUnmount ≠ HookSpec.absent →
          Event.hookRun v.name Phase.unmountP false ∈ C)
      ∧ (cleanupThrows mc = false →
          D = (unmountBehaviors v.behaviors).1)) := by
  refine ⟨?_, ?_, ?_⟩
  · refine ⟨(layoutMountBehaviors v.behaviors).2,
      (viewHookRun v.name Phase.layoutMountP v.onLayoutMount).2, rfl,
      layoutMountBehaviors_events_isB v.behaviors,
      viewHookRun_events_isB v.name Phase.layoutMountP v.onLayoutMount, ?_, ?_⟩
    · intro hne
      cases hc : v.onLayoutMount with
      | absent => exact absurd hc hne
      | ret c => simp [viewHookRun, hc]
      | throws e => simp [viewHookRun, hc]
    · intro b hb hne
      refine mem_layoutMountBehaviors_events v.behaviors b hb _ ?_
      cases hc : b.inst.onLayoutMount with
      | absent => exact absurd hc hne
      | ret c => simp [layoutMountBehavior, hc]
      | throws e => simp [layoutMountBehavior, hc]
  · refine ⟨(mountBehaviors v.behaviors).2,
      (viewHookRun v.name Phase.mountP v.onMount).2, rfl,
      mountBehaviors_events_isB v.behaviors,
      viewHookRun_events_isB v.name Phase.mountP v.onMount, ?_, ?_⟩
    · intro hne
      cases hc : v.onMount with
      | absent => exact absurd hc hne
      | ret c => simp [viewHookRun, hc]
      | throws e => simp [viewHookRun, hc]
    · intro b hb hne
      refine mem_mountBehaviors_events v.behaviors b hb _ ?_
      cases hc : b.inst.onMount with
      | absent => exact absurd hc hne
      | ret c => simp [mountBehavior, hc]
      | throws e => simp [mountBehavior, hc]
  · cases hmc : mc with
    | none =>
      refine ⟨(runCleanupStep v.name CleanupKind.mountK false none).1
          ++ unmountHookEvents v.name false v.onUnmount,
        (unmountBehaviors v.behaviors).1, rfl, ?_, unmountBehaviors_events_isB _,
        ?_, fun _ => rfl⟩
      · intro ev hev
        rcases List.mem_append.mp hev with hh | hh
        · exact runCleanupStep_events_isB _ _ _ _ ev hh
        · exact unmountHookEvents_isB _ _ _ ev hh
      · intro _ hne
        refine List.mem_append.mpr (Or.inr ?_)
        cases hc : v.onUnmount with
        | absent => exact absurd hc hne
        | ret c => simp [unmountHookEvents, hc]
        | throws e => simp [unmountHookEvents, hc]
    | some cs =>
      cases hcs : cs with
      | ok =>
        refine ⟨(runCleanupStep v.name CleanupKind.mountK false (some CleanupSpec.ok)).1
            ++ unmountHookEvents v.name false v.onUnmount,
          (unmountBehaviors v.behaviors).1, rfl, ?_, unmountBehaviors_events_isB _,
          ?_, fun _ => rfl⟩
        · intro ev hev
          rcases List.mem_append.mp hev with hh | hh
          · exact runCleanupStep_events_isB _ _ _ _ ev hh
          · exact unmountHookEvents_isB _ _ _ ev hh
        · intro _ hne
          refine List.mem_append.mpr (Or.inr ?_)
          cases hc : v.onUnmount with
          | absent => exact absurd hc hne
          | ret c => simp [unmountHookEvents, hc]
          | throws e => simp [unmountHookEvents, hc]
      | throws e =>
        refine ⟨(unmountClosure v (some (CleanupSpec.throws e))).1, [],
          by simp, ?_, by intro ev hev; simp at hev, ?_, ?_⟩
        · intro ev hev
          simp only [unmountClosure, runCleanupStep] at hev
          simp at hev
          subst hev; rfl
        · intro hct
          simp [cleanupThrows] at hct
        · intro hct
          simp [cleanupThrows] at hct

/-- Witness for C7 at a concrete view with three behaviors and a captured
mount cleanup. -/
theorem lifecycle_order_asymmetry_witness :
    (∃ A B, (layoutMountEffect vFault).2.1 = A ++ B
      ∧ (∀ ev ∈ A, evIsB ev = true)
      ∧ (∀ ev ∈ B, evIsB ev = false)
      ∧ (vFault.onLayoutMount ≠ HookSpec.absent →
          Event.hookRun vFault.name Phase.layoutMountP false ∈ B)
      ∧ (∀ b ∈ vFault.behaviors, b.inst.onLayoutMount ≠ HookSpec.absent →
          Event.hookRun b.inst.name Phase.layoutMountP true ∈ A))
    ∧ (∃ A B, (mountEffect vFault).2.1 = A ++ B
      ∧ (∀ ev ∈ A, evIsB ev = true)
      ∧ (∀ ev ∈ B, evIsB ev = false)
      ∧ (vFault.onMount ≠ HookSpec.absent →
          Event.hookRun vFault.name Phase.mountP false ∈ B)
      ∧ (∀ b ∈ vFault.behaviors, b.inst.onMount ≠ HookSpec.absent →
          Event.hookRun b.inst.name Phase.mountP true ∈ A))
    ∧ (∃ C D, (unmountClosure vFault (some CleanupSpec.ok)).1 = C ++ D
      ∧ (∀ ev ∈ C, evIsB ev = false)
      ∧ (∀ ev ∈ D, evIsB ev = true)
      ∧ (cleanupThrows (some CleanupSpec.ok) = false →
          vFault.onUnmount ≠ HookSpec.absent →
          Event.hookRun vFault.name Phase.unmountP false ∈ C)
      ∧ (cleanupThrows (some CleanupSpec.ok) = false →
          D = (unmountBehaviors vFault.behaviors).1)) :=
  lifecycle_order_asymmetry vFault (some CleanupSpec.ok)

/-- C8 counterexample: a view with lifecycle hooks but neither a render
method nor a template.  The first render does raise the missing-render
error, but only after the creation block has already invoked the view's
`onCreate` — a lifecycle hook of that instance runs before the error is
raised, refuting the claim's ordering. -/
theorem missing_render_cex :
    (mountInstance vNoRender false).2 = some RenderErr.missingRender
    ∧ (mountInstance vNoRender false).1 =
        [Event.hookRun nmView Phase.createP false]
    ∧ Event.hookRun nmView Phase.createP false ∈ (mountInstance vNoRender false).1 := by
  decide

/-- C8 amended: when an instance has neither a render method nor a template
and its `onCreate` does not itself throw, the first render raises the
missing-render error synchronously and mounting is aborted: the only
events are the creation block's — `onCreate` has already run — and no
layout-mount, mount, or unmount phase hook of the view or of any behavior
ever runs. -/
theorem missing_render_amended (v : ViewInst) (hr : v.hasRender = false)
    (hc : v.onCreate.isThrows = false) :
    (mountInstance v false).2 = some RenderErr.missingRender
    ∧ (mountInstance v false).1 = (createInstance v).1
    ∧ ∀ nm2 ph b2, Event.hookRun nm2 ph b2 ∈ (mountInstance v false).1 →
        ph = Phase.createP := by
  cases hco : v.onCreate with
  | absent =>
    refine ⟨?_, ?_, ?_⟩
    · simp [mountInstance, renderBody, createInstance, hco, hr]
    · simp [mountInstance, renderBody, createInstance, hco, hr]
    · intro nm2 ph b2 hmem
      simp [mountInstance, renderBody, createInstance, hco, hr] at hmem
  | ret c =>
    refine ⟨?_, ?_, ?_⟩
    · simp [mountInstance, renderBody, createInstance, hco, hr]
    · simp [mountInstance, renderBody, createInstance, hco, hr]
    · intro nm2 ph b2 hmem
      simp [mountInstance, renderBody, createInstance, hco, hr] at hmem
      exact hmem.2.1
  | throws e =>
    rw [hco] at hc
    simp [HookSpec.isThrows] at hc

/-- Witness for C8 amended at the concrete render-less view. -/
theorem missing_render_amended_witness :
    vNoRender.hasRender = false
    ∧ vNoRender.onCreate.isThrows = false
    ∧ (mountInstance vNoRender false).2 = some RenderErr.missingRender
    ∧ (mountInstance vNoRender false).1 = (createInstance vNoRender).1 := by
  have h := missing_render_amended vNoRender rfl (by decide)
  exact ⟨rfl, by decide, h.1, h.2.1⟩

/-- C9 counterexample: a view whose `onCreate` throws.  The exception is
not caught at the call site: no error report is emitted and the exception
escapes the engine to the host, refuting the claim that every lifecycle
hook exception (including `onCreate`) is caught and reported. -/
theorem lifecycle_catch_cex :
    (mountInstance vCreateThrows true).2 = some (RenderErr.hookExc 5)
    ∧ ∀ ev ∈ (mountInstance vCreateThrows true).1, isReportEvent ev = false := by
  decide

/-- C9 amended: every exception thrown from `onLayoutMount`, `onMount` or
`onUnmount` — of the view or of a behavior — is caught at its call site,
reported to the sink with the full context (phase, entity name,
`isBehavior` flag), and sibling invocations continue; nothing escapes the
unmount closure provided no captured cleanup throws.  Exceptions from
`onCreate` are excluded: they are not caught (see the counterexample). -/
theorem lifecycle_catch_amended (v : ViewInst) (mc : Option CleanupSpec)
    (hmc : cleanupThrows mc = false)
    (hcl : ∀ b ∈ v.behaviors, cleanupThrows b.layoutCleanup = false ∧
      cleanupThrows b.cleanup = false) :
    (∀ b ∈ v.behaviors, ∀ e, b.inst.onLayoutMount = HookSpec.throws e →
        Event.report e ⟨Phase.layoutMountP, b.inst.name, true⟩ ∈
          (layoutMountEffect v).2.1)
    ∧ (∀ b ∈ v.behaviors, ∀ e, b.inst.onMount = HookSpec.throws e →
        Event.report e ⟨Phase.mountP, b.inst.name, true⟩ ∈ (mountEffect v).2.1)
    ∧ (∀ e, v.onLayoutMount = HookSpec.throws e →
        Event.report e ⟨Phase.layoutMountP, v.name, false⟩ ∈
          (layoutMountEffect v).2.1)
    ∧ (∀ e, v.onMount = HookSpec.throws e →
        Event.report e ⟨Phase.mountP, v.name, false⟩ ∈ (mountEffect v).2.1)
    ∧ (unmountClosure v mc).2 = none
    ∧ (∀ e, v.onUnmount = HookSpec.throws e →
        Event.report e ⟨Phase.unmountP, v.name, false⟩ ∈ (unmountClosure v mc).1)
    ∧ (∀ b ∈ v.behaviors, ∀ e, b.inst.onUnmount = HookSpec.throws e →
        Event.report e ⟨Phase.unmountP, b.inst.name, true⟩ ∈
          (unmountClosure v mc).1)
    ∧ (∀ b ∈ v.behaviors, b.inst.onUnmount ≠ HookSpec.absent →
        Event.hookRun b.inst.name Phase.unmountP true ∈ (unmountClosure v mc).1) := by
  have hs1 := runCleanupStep_snd_none v.name CleanupKind.mountK false mc hmc
  have hclosure : (unmountClosure v mc).1 =
      (runCleanupStep v.name CleanupKind.mountK false mc).1
        ++ unmountHookEvents v.name false v.onUnmount
        ++ (unmountBehaviors v.behaviors).1 := by
    simp [unmountClosure, hs1]
  refine ⟨?_, ?_, ?_, ?_, ?_, ?_, ?_, ?_⟩
  · intro b hb e he
    refine List.mem_append_left _ ?_
    refine mem_layoutMountBehaviors_events v.behaviors b hb _ ?_
    simp [layoutMountBehavior, he]
  · intro b hb e he
    refine List.mem_append_left _ ?_
    refine mem_mountBehaviors_events v.behaviors b hb _ ?_
    simp [mountBehavior, he]
  · intro e he
    refine List.mem_append_right _ ?_
    simp [viewHookRun, he]
  · intro e he
    refine List.mem_append_right _ ?_
    simp [viewHookRun, he]
  · have hs3 := (unmountBehaviors_no_throw v.behaviors hcl).1
    simp [unmountClosure, hs1, hs3]
  · intro e he
    rw [hclosure]
    refine List.mem_append_left _ (List.mem_append_right _ ?_)
    simp [unmountHookEvents, he]
  · intro b hb e he
    rw [hclosure]
    refine List.mem_append_right _ ?_
    refine mem_unmountBehaviors_events v.behaviors hcl b hb _ ?_
    refine mem_unmountBehavior_hook b (hcl b hb).1 (hcl b hb).2 _ ?_
    simp [unmountHookEvents, he]
  · intro b hb hne
    rw [hclosure]
    refine List.mem_append_right _ ?_
    refine mem_unmountBehaviors_events v.behaviors hcl b hb _ ?_
    refine mem_unmountBehavior_hook b (hcl b hb).1 (hcl b hb).2 _ ?_
    cases hc2 : b.inst.onUnmount with
    | absent => exact absurd hc2 hne
    | ret c => simp [unmountHookEvents, hc2]
    | throws e => simp [unmountHookEvents, hc2]

/-- Witness for C9 amended: a view and a behavior throwing in every mount
and unmount hook; each throw is reported with its exact context, and the
unmount closure completes without an escaping exception. -/
theorem lifecycle_catch_amended_witness :
    cleanupThrows (some CleanupSpec.ok) = false
    ∧ (∀ b ∈ vAllThrow.behaviors,
        cleanupThrows b.layoutCleanup = false ∧ cleanupThrows b.cleanup = false)
    ∧ Event.report 11 ⟨Phase.layoutMountP, nmB3, true⟩ ∈
        (layoutMountEffect vAllThrow).2.1
    ∧ Event.report 15 ⟨Phase.mountP, nmView, false⟩ ∈ (mountEffect vAllThrow).2.1
    ∧ (unmountClosure vAllThrow (some CleanupSpec.ok)).2 = none
    ∧ Event.report 13 ⟨Phase.unmountP, nmB3, true⟩ ∈
        (unmountClosure vAllThrow (some CleanupSpec.ok)).1 := by
  have h := lifecycle_catch_amended vAllThrow (some CleanupSpec.ok)
    (by decide) (by decide)
  exact ⟨by decide, by decide,
    h.1 entAllThrow (by decide) 11 (by decide),
    h.2.2.2.1 15 (by decide),
    h.2.2.2.2.1,
    h.2.2.2.2.2.2.1 entAllThrow (by decide) 13 (by decide)⟩

end MobxView
